import Mathlib

/-!
# Verification of the transparent price cache (`sample1` package)

Shallow embedding of `src/cache.go`. The Go program wraps a slow
`PriceService` with a cache keyed by item code; cached entries expire after
`maxAge`; the batch operation `GetPricesFor` fans out one goroutine per item
code, each sending one `PriceRequest` on a shared buffered channel, and the
caller drains the channel, aborting on the first error it receives.

Modelling decisions (each noted at the definition it concerns):
* Prices are `float64` values in Go but are never computed with — only
  stored, copied and returned — so they are embedded as opaque `Int` values.
* Instants (`time.Time`) and durations (`time.Duration`) are embedded as
  `Int` (nanosecond counts); `t.Sub(t0) < maxAge` becomes `t - t0 < maxAge`.
* Go's `(value, error)` pairs are embedded literally: a result is a value
  together with an `Option String` error (`none` = `nil` error).
* The `map[string]Price` store is embedded as an association list whose
  insertion overwrites the binding in place, matching Go map semantics for
  lookup and assignment.
* Each call of the program receives the current instant `now : Int`
  explicitly, standing for the `time.Now()` calls of the Go code.
* Concurrency: goroutines of one batch are modelled as executing atomically
  in a schedule order, and the channel delivers each goroutine's single
  message at the moment it finishes, so the arrival order at the channel is
  a permutation of the launched item codes.  Every such schedule is a
  behaviour the Go runtime may produce (a goroutine may run to completion
  before the next one starts, and completion order is unconstrained).
* The package-level mutex `m` guards only the store write inside
  `sequentialPriceSet`; the lock discipline of each store access is recorded
  separately in an access-trace model (`GetPriceForAccesses`).
-/

namespace Sample1

/-- `Price` struct of the Go code: the price itself with the creation date
of the cache entry.  `price float64` is embedded as an opaque `Int`,
`creationDate time.Time` as an `Int` nanosecond timestamp. -/
structure Price where
  price : Int
  creationDate : Int
deriving DecidableEq

/-- `func (p *Price) checkExpiration(maxAge time.Duration) bool`:
`return (time.Now().Sub(p.creationDate)) < maxAge`.  The call instant
`time.Now()` is the explicit parameter `now`. -/
def Price.checkExpiration (p : Price) (now : Int) (maxAge : Int) : Bool :=
  decide (now - p.creationDate < maxAge)

/-- The `map[string]Price` store, as an association list (no key occurs
twice when built by `Store.set` from the empty store). -/
abbrev Store := List (String × Price)

/-- Go map lookup `priceStruct, ok := c.prices[itemCode]`:
`some` plays `ok = true`. -/
def Store.find (s : Store) (itemCode : String) : Option Price :=
  (List.find? (fun kv => kv.1 == itemCode) s).map (fun kv => kv.2)

/-- Go map assignment `c.prices[itemCode] = p`: overwrites the binding for
`itemCode` if present, otherwise adds one. -/
def Store.set (s : Store) (itemCode : String) (p : Price) : Store :=
  match s with
  | [] => [(itemCode, p)]
  | kv :: rest =>
      if kv.1 == itemCode then (itemCode, p) :: rest
      else kv :: Store.set rest itemCode p

/-- The key set of the store (with multiplicity, but `Store.set` never
duplicates a key it finds). -/
def Store.keys (s : Store) : List String :=
  s.map (fun kv => kv.1)

/-- The upstream collaborator `PriceService`: its single method
`GetPriceFor(itemCode string) (float64, error)` either returns a price
(`Except.ok`) or fails with an error (`Except.error`, carrying the error's
message `err.Error()`).  It is embedded as a function: the Go service is an
external black box whose answer for a given item code during one scenario
is whatever this function says. -/
abbrev PriceService := String → Except String Int

/-- `TransparentCache` struct.  The `actualPriceService` field is the
immutable collaborator; it is passed explicitly as a `PriceService`
argument to the operations (instead of being stored in the structure) so
that the cache state stays decidably comparable. -/
structure TransparentCache where
  maxAge : Int
  prices : Store
deriving DecidableEq

/-- `func NewTransparentCache(actualPriceService PriceService, maxAge time.Duration) *TransparentCache`:
builds the cache with an empty `map[string]Price{}`. -/
def NewTransparentCache (maxAge : Int) : TransparentCache :=
  { maxAge := maxAge, prices := [] }

/-- `func (c *TransparentCache) sequentialPriceSet(itemCode string, p Price)`:
`m.Lock(); c.prices[itemCode] = p; m.Unlock()` — the store write (the mutex
itself is accounted for in the access-trace model below). -/
def sequentialPriceSet (c : TransparentCache) (itemCode : String) (p : Price) :
    TransparentCache :=
  { c with prices := Store.set c.prices itemCode p }

/-- The observable outcome of one `GetPriceFor` call: the returned
`(float64, error)` pair, the cache state after the call, and the list of
item codes for which `c.actualPriceService.GetPriceFor` was invoked during
the call (in order). -/
structure GetPriceOutcome where
  price : Int
  err : Option String
  cache : TransparentCache
  upstreamCalls : List String
deriving DecidableEq

/-- The miss/stale path of `GetPriceFor`:
`price, err := c.actualPriceService.GetPriceFor(itemCode)`;
on error `return 0, fmt.Errorf("getting price from service : %v", err.Error())`
(the store is untouched); on success
`c.sequentialPriceSet(itemCode, Price{price, time.Now()}); return price, nil`. -/
def fetchFromService (svc : PriceService) (c : TransparentCache) (now : Int)
    (itemCode : String) : GetPriceOutcome :=
  match svc itemCode with
  | Except.error e =>
      { price := 0
        err := some ("getting price from service : " ++ e)
        cache := c
        upstreamCalls := [itemCode] }
  | Except.ok price =>
      { price := price
        err := none
        cache := sequentialPriceSet c itemCode { price := price, creationDate := now }
        upstreamCalls := [itemCode] }

/-- `func (c *TransparentCache) GetPriceFor(itemCode string) (float64, error)`:
look the item up in the store; if found and not expired return the cached
price with no service call and no write; otherwise fetch from the service
(`fetchFromService`). -/
def GetPriceFor (svc : PriceService) (c : TransparentCache) (now : Int)
    (itemCode : String) : GetPriceOutcome :=
  match Store.find c.prices itemCode with
  | some priceStruct =>
      if priceStruct.checkExpiration now c.maxAge then
        { price := priceStruct.price, err := none, cache := c, upstreamCalls := [] }
      else
        fetchFromService svc c now itemCode
  | none => fetchFromService svc c now itemCode

/-- Whether the fresh-hit branch of `GetPriceFor` is taken (`ok &&
priceStruct.checkExpiration(c.maxAge)`). -/
def hasFreshEntry (c : TransparentCache) (now : Int) (itemCode : String) : Bool :=
  match Store.find c.prices itemCode with
  | some p => p.checkExpiration now c.maxAge
  | none => false

/-- `PriceRequest` struct: the message a goroutine sends on the channel —
the `(price, err)` pair returned by its `GetPriceFor` call. -/
structure PriceRequest where
  price : Int
  err : Option String
deriving DecidableEq

/-- `func processRequest(cache *TransparentCache, c chan PriceRequest, itemCode string)`:
runs `cache.GetPriceFor(itemCode)` and sends `PriceRequest{price, err}`.
Returns the message together with the cache state after the call and the
upstream invocations made. -/
def processRequest (svc : PriceService) (c : TransparentCache) (now : Int)
    (itemCode : String) : PriceRequest × TransparentCache × List String :=
  let o := GetPriceFor svc c now itemCode
  ({ price := o.price, err := o.err }, o.cache, o.upstreamCalls)

/-- One atomic-goroutine schedule of the fan-out of `GetPricesFor`:
the goroutines launched (one per element of `arrival`) execute one after
the other in the order of `arrival`, each sending its message when it
finishes, so the channel holds the messages in this same order.  `arrival`
ranges over the permutations of the launched item codes; each such
execution is a behaviour the Go scheduler may produce. -/
def runGoroutines (svc : PriceService) (c : TransparentCache) (now : Int) :
    List String → List PriceRequest × TransparentCache × List String
  | [] => ([], c, [])
  | itemCode :: rest =>
      let step := processRequest svc c now itemCode
      let restRun := runGoroutines svc step.2.1 now rest
      (step.1 :: restRun.1, restRun.2.1, step.2.2 ++ restRun.2.2)

/-- The consuming loop of `GetPricesFor`: receive one `PriceRequest` per
launched goroutine, in arrival order; on the first message carrying an
error, `return []float64{}, request.err`; otherwise append
`request.price` to `results` and finally `return results, nil`. -/
def collectResponses : List PriceRequest → List Int × Option String
  | [] => ([], none)
  | request :: rest =>
      match request.err with
      | some e => ([], some e)
      | none =>
          match collectResponses rest with
          | (_, some e) => ([], some e)
          | (results, none) => (request.price :: results, none)

/-- `func (c *TransparentCache) GetPricesFor(itemCodes ...string) ([]float64, error)`
under the atomic-goroutine schedule whose channel arrival order is
`arrival` (a permutation of `itemCodes`): the returned
`([]float64, error)` pair, the final cache state, and all upstream
invocations made by the batch. -/
def GetPricesFor (svc : PriceService) (c : TransparentCache) (now : Int)
    (arrival : List String) :
    (List Int × Option String) × TransparentCache × List String :=
  let fanOut := runGoroutines svc c now arrival
  (collectResponses fanOut.1, fanOut.2.1, fanOut.2.2)

/-! ## Lock-discipline model of the store accesses

The Go code has exactly two syntactic accesses to the shared map
`c.prices`: the read `priceStruct, ok := c.prices[itemCode]` at the top of
`GetPriceFor`, performed without holding any lock, and the write
`c.prices[itemCode] = p` inside `sequentialPriceSet`, performed between
`m.Lock()` and `m.Unlock()`.  The model records, per execution path, the
sequence of store accesses and whether the mutex `m` is held at each. -/

/-- A store access is a read or a write of the map `c.prices`. -/
inductive AccessKind where
  | read
  | write
deriving DecidableEq

/-- One access to the shared map, with the lock state at that access. -/
structure StoreAccess where
  kind : AccessKind
  underMutex : Bool
deriving DecidableEq

/-- Store accesses of `sequentialPriceSet`: one write, with `m` held. -/
def sequentialPriceSetAccesses : List StoreAccess :=
  [{ kind := AccessKind.write, underMutex := true }]

/-- Store accesses of one `GetPriceFor` call, by path: the unguarded map
read always happens first; a guarded write (via `sequentialPriceSet`)
follows only when the fresh-hit branch is not taken and the service call
succeeds. -/
def GetPriceForAccesses (freshHit : Bool) (serviceOk : Bool) : List StoreAccess :=
  { kind := AccessKind.read, underMutex := false } ::
    (if freshHit then []
     else if serviceOk then sequentialPriceSetAccesses
     else [])

/-! ## Helper lemmas -/

theorem Store.find_set_self (s : Store) (itemCode : String) (p : Price) :
    Store.find (Store.set s itemCode p) itemCode = some p := by
  induction s with
  | nil => simp [Store.set, Store.find, List.find?]
  | cons kv rest ih =>
      by_cases h : kv.1 == itemCode
      · simp [Store.set, Store.find, List.find?, h]
      · simpa [Store.set, Store.find, List.find?, h] using ih

theorem Store.keys_set_superset (s : Store) (itemCode : String) (p : Price)
    (k : String) (hk : k ∈ Store.keys s) :
    k ∈ Store.keys (Store.set s itemCode p) := by
  induction s with
  | nil => simp [Store.keys] at hk
  | cons kv rest ih =>
      by_cases h : kv.1 == itemCode
      · have hkey : kv.1 = itemCode := by simpa using h
        simp [Store.keys, Store.set, h] at hk ⊢
        rcases hk with hk | hk
        · exact Or.inl (hkey ▸ hk)
        · exact Or.inr hk
      · simp [Store.keys, Store.set, h] at hk ⊢
        rcases hk with hk | hk
        · exact Or.inl hk
        · exact Or.inr (by simpa [Store.keys] using ih (by simpa [Store.keys] using hk))

theorem Store.keys_set_subset (s : Store) (itemCode : String) (p : Price)
    (k : String) (hk : k ∈ Store.keys (Store.set s itemCode p)) :
    k ∈ Store.keys s ∨ k = itemCode := by
  induction s with
  | nil =>
      simp [Store.keys, Store.set] at hk
      exact Or.inr hk
  | cons kv rest ih =>
      by_cases h : kv.1 == itemCode
      · simp [Store.keys, Store.set, h] at hk ⊢
        rcases hk with hk | hk
        · exact Or.inr hk
        · exact Or.inl (Or.inr hk)
      · simp [Store.keys, Store.set, h] at hk ⊢
        rcases hk with hk | hk
        · exact Or.inl (Or.inl hk)
        · rcases ih (by simpa [Store.keys] using hk) with h2 | h2
          · exact Or.inl (Or.inr (by simpa [Store.keys] using h2))
          · exact Or.inr h2

theorem getPriceFor_of_fresh (svc : PriceService) (c : TransparentCache) (now : Int)
    (itemCode : String) (p : Price)
    (hfind : Store.find c.prices itemCode = some p)
    (hfresh : p.checkExpiration now c.maxAge = true) :
    GetPriceFor svc c now itemCode =
      { price := p.price, err := none, cache := c, upstreamCalls := [] } := by
  unfold GetPriceFor
  rw [hfind]
  simp [hfresh]

theorem getPriceFor_of_not_fresh (svc : PriceService) (c : TransparentCache) (now : Int)
    (itemCode : String) (hmiss : hasFreshEntry c now itemCode = false) :
    GetPriceFor svc c now itemCode = fetchFromService svc c now itemCode := by
  unfold hasFreshEntry at hmiss
  unfold GetPriceFor
  cases hfind : Store.find c.prices itemCode with
  | none => rfl
  | some p =>
      rw [hfind] at hmiss
      simp only at hmiss
      simp [hmiss]

theorem fetchFromService_upstreamCalls (svc : PriceService) (c : TransparentCache)
    (now : Int) (itemCode : String) :
    (fetchFromService svc c now itemCode).upstreamCalls = [itemCode] := by
  unfold fetchFromService
  cases svc itemCode <;> rfl

theorem collectResponses_err_none_iff (reqs : List PriceRequest) :
    (collectResponses reqs).2 = none ↔ ∀ r ∈ reqs, r.err = none := by
  induction reqs with
  | nil => simp [collectResponses]
  | cons request rest ih =>
      cases herr : request.err with
      | some e => simp [collectResponses, herr]
      | none =>
          cases hrest : collectResponses rest with
          | mk results errOpt =>
              cases errOpt with
              | some e =>
                  rw [hrest] at ih
                  constructor
                  · intro h
                    simp [collectResponses, herr, hrest] at h
                  · intro h
                    have h2 := ih.mpr (fun r hr => h r (List.mem_cons_of_mem _ hr))
                    simp at h2
              | none =>
                  rw [hrest] at ih
                  constructor
                  · intro _ r hr
                    rcases List.mem_cons.mp hr with hr | hr
                    · exact hr ▸ herr
                    · exact ih.mp rfl r hr
                  · intro _
                    simp [collectResponses, herr, hrest]

theorem collectResponses_of_all_ok (reqs : List PriceRequest)
    (h : ∀ r ∈ reqs, r.err = none) :
    collectResponses reqs = (reqs.map (fun r => r.price), none) := by
  induction reqs with
  | nil => rfl
  | cons request rest ih =>
      have hreq : request.err = none := h request (List.mem_cons_self _ _)
      have hrest := ih (fun r hr => h r (List.mem_cons_of_mem _ hr))
      simp [collectResponses, hreq, hrest]

theorem collectResponses_of_err (reqs : List PriceRequest)
    (h : (collectResponses reqs).2 ≠ none) :
    (collectResponses reqs).1 = [] := by
  induction reqs with
  | nil => simp [collectResponses] at h
  | cons request rest ih =>
      cases herr : request.err with
      | some e => simp [collectResponses, herr]
      | none =>
          cases hrest : collectResponses rest with
          | mk results errOpt =>
              cases errOpt with
              | some e => simp [collectResponses, herr, hrest]
              | none =>
                  simp [collectResponses, herr, hrest] at h

theorem runGoroutines_length (svc : PriceService) (c : TransparentCache) (now : Int)
    (arrival : List String) :
    (runGoroutines svc c now arrival).1.length = arrival.length := by
  induction arrival generalizing c with
  | nil => rfl
  | cons itemCode rest ih => simp [runGoroutines, ih]

theorem keys_getPriceFor_superset (svc : PriceService) (c : TransparentCache)
    (now : Int) (itemCode : String) (k : String) (hk : k ∈ Store.keys c.prices) :
    k ∈ Store.keys (GetPriceFor svc c now itemCode).cache.prices := by
  unfold GetPriceFor fetchFromService
  cases hfind : Store.find c.prices itemCode with
  | some p =>
      cases hfr : p.checkExpiration now c.maxAge
      · simp only [hfr]
        cases hcall : svc itemCode with
        | error e => simpa using hk
        | ok v => simpa [sequentialPriceSet] using Store.keys_set_superset _ _ _ _ hk
      · simpa [hfr] using hk
  | none =>
      cases hcall : svc itemCode with
      | error e => simpa using hk
      | ok v => simpa [sequentialPriceSet] using Store.keys_set_superset _ _ _ _ hk

theorem keys_getPriceFor_subset (svc : PriceService) (c : TransparentCache)
    (now : Int) (itemCode : String) (k : String)
    (hk : k ∈ Store.keys (GetPriceFor svc c now itemCode).cache.prices) :
    k ∈ Store.keys c.prices ∨ k = itemCode := by
  unfold GetPriceFor fetchFromService at hk
  cases hfind : Store.find c.prices itemCode with
  | some p =>
      simp only [hfind] at hk
      cases hfr : p.checkExpiration now c.maxAge
      · simp only [hfr, Bool.false_eq_true, if_false] at hk
        cases hcall : svc itemCode with
        | error e =>
            simp only [hcall] at hk
            exact Or.inl hk
        | ok v =>
            simp only [hcall, sequentialPriceSet] at hk
            exact Store.keys_set_subset _ _ _ _ hk
      · simp only [hfr, if_true] at hk
        exact Or.inl hk
  | none =>
      simp only [hfind] at hk
      cases hcall : svc itemCode with
      | error e =>
          simp only [hcall] at hk
          exact Or.inl hk
      | ok v =>
          simp only [hcall, sequentialPriceSet] at hk
          exact Store.keys_set_subset _ _ _ _ hk

theorem keys_runGoroutines_superset (svc : PriceService) (now : Int)
    (arrival : List String) (c : TransparentCache) (k : String)
    (hk : k ∈ Store.keys c.prices) :
    k ∈ Store.keys (runGoroutines svc c now arrival).2.1.prices := by
  induction arrival generalizing c with
  | nil => simpa [runGoroutines] using hk
  | cons itemCode rest ih =>
      simp only [runGoroutines, processRequest]
      exact ih _ (keys_getPriceFor_superset svc c now itemCode k hk)

theorem getPricesFor_fst (svc : PriceService) (c : TransparentCache) (now : Int)
    (arrival : List String) :
    (GetPricesFor svc c now arrival).1 =
      collectResponses (runGoroutines svc c now arrival).1 := rfl

theorem getPricesFor_cache (svc : PriceService) (c : TransparentCache) (now : Int)
    (arrival : List String) :
    (GetPricesFor svc c now arrival).2.1 = (runGoroutines svc c now arrival).2.1 := rfl

theorem getPricesFor_calls (svc : PriceService) (c : TransparentCache) (now : Int)
    (arrival : List String) :
    (GetPricesFor svc c now arrival).2.2 = (runGoroutines svc c now arrival).2.2 := rfl

/-! ## Concrete scenarios for counterexamples and witnesses -/

/-- A service that no scenario using it ever invokes. -/
def svcUnused : PriceService := fun _ => Except.error "service should not be called"

/-- A service that answers every item with price 5. -/
def svcFive : PriceService := fun _ => Except.ok 5

/-- A service that fails every item with cause "boom". -/
def svcBoom : PriceService := fun _ => Except.error "boom"

/-- A cache with `maxAge = 10` holding entries for "a" (price 1) and "b"
(price 2), both fetched at instant 0 (hence fresh at any instant below 10). -/
def cacheTwoFresh : TransparentCache :=
  { maxAge := 10
    prices := [("a", { price := 1, creationDate := 0 }),
               ("b", { price := 2, creationDate := 0 })] }

/-- A freshly constructed cache with `maxAge = 10` and an empty store. -/
def cacheEmpty : TransparentCache := { maxAge := 10, prices := [] }

/-! ## The claims -/

/-- C1: refuted on the code. The claim says that whenever every individual
lookup of a batch succeeds, the i-th returned price is the price of the
i-th requested identifier regardless of the order in which the concurrent
fetches complete.  In the code the consuming loop of `GetPricesFor`
appends prices in channel-arrival order and `PriceRequest` carries no
index or item code, so nothing re-sequences the results.  Concretely: for
input `["a", "b"]` with fresh cached prices 1 and 2 (every lookup
succeeds), the schedule in which the goroutine for "b" completes first —
arrival order `["b", "a"]`, a permutation of the input — returns
`([2, 1], nil)`, while input alignment demands `[1, 2]`; the input-order
schedule returns `([1, 2], nil)`, showing the result depends on
completion order. -/
theorem getPricesFor_not_input_aligned :
    List.Perm ["b", "a"] ["a", "b"] ∧
    (GetPricesFor svcUnused cacheTwoFresh 0 ["a", "b"]).1 = ([1, 2], none) ∧
    (GetPricesFor svcUnused cacheTwoFresh 0 ["b", "a"]).1 = ([2, 1], none) ∧
    ([2, 1] : List Int) ≠ [1, 2] := by decide

/-- C2: refuted on the code. The claim says a single exclusive lock guards
every read and write of the store.  In the code only the write inside
`sequentialPriceSet` holds the mutex `m`; the map read
`priceStruct, ok := c.prices[itemCode]` at the top of `GetPriceFor` is
performed with no lock, on every execution path, so a concurrent
`sequentialPriceSet` write can race with it (a Go map data race). -/
theorem store_read_not_under_mutex :
    ∀ freshHit serviceOk : Bool,
      { kind := AccessKind.read, underMutex := false } ∈
          GetPriceForAccesses freshHit serviceOk ∧
        ¬ ∀ a ∈ GetPriceForAccesses freshHit serviceOk, a.underMutex = true := by
  decide

/-- C3: confirmed. For an entry fetched at `t0` under `maxAge = D`, a
single-item lookup at instant `now` is a cache hit — returns the stored
value, touches nothing, and calls no collaborator — iff `now - t0 < D`
(strict); at `now - t0 ≥ D` the collaborator is invoked again. -/
theorem freshness_boundary (svc : PriceService) (c : TransparentCache) (now : Int)
    (itemCode : String) (v t0 : Int)
    (hfind : Store.find c.prices itemCode = some { price := v, creationDate := t0 }) :
    ((GetPriceFor svc c now itemCode).upstreamCalls = [] ↔ now - t0 < c.maxAge) ∧
    (now - t0 < c.maxAge →
      GetPriceFor svc c now itemCode =
        { price := v, err := none, cache := c, upstreamCalls := [] }) ∧
    (c.maxAge ≤ now - t0 →
      (GetPriceFor svc c now itemCode).upstreamCalls = [itemCode]) := by
  by_cases h : now - t0 < c.maxAge
  · have hfresh : Price.checkExpiration { price := v, creationDate := t0 } now c.maxAge
        = true := by
      simp [Price.checkExpiration, h]
    rw [getPriceFor_of_fresh svc c now itemCode _ hfind hfresh]
    exact ⟨by simp [h], fun _ => rfl, fun hge => absurd h (by omega)⟩
  · have hmiss : hasFreshEntry c now itemCode = false := by
      unfold hasFreshEntry
      rw [hfind]
      simp [Price.checkExpiration, h]
    rw [getPriceFor_of_not_fresh svc c now itemCode hmiss,
      fetchFromService_upstreamCalls]
    exact ⟨by simp [h], fun hlt => absurd hlt h, fun _ => rfl⟩

/-- Witness for C3 at a concrete input: item "a" fetched at 0 with price 1
in a `maxAge = 10` cache, looked up at instant 3. -/
theorem freshness_boundary_witness :
    ((GetPriceFor svcFive cacheTwoFresh 3 "a").upstreamCalls = [] ↔
      (3 : Int) - 0 < cacheTwoFresh.maxAge) ∧
    ((3 : Int) - 0 < cacheTwoFresh.maxAge →
      GetPriceFor svcFive cacheTwoFresh 3 "a" =
        { price := 1, err := none, cache := cacheTwoFresh, upstreamCalls := [] }) ∧
    (cacheTwoFresh.maxAge ≤ (3 : Int) - 0 →
      (GetPriceFor svcFive cacheTwoFresh 3 "a").upstreamCalls = ["a"]) :=
  freshness_boundary svcFive cacheTwoFresh 3 "a" 1 0 (by decide)

/-- C4: confirmed. A batch returns a nil error iff every launched
individual lookup succeeded; in that case the price list collects one
price per launched goroutine; and whenever any lookup failed, the batch
returns the empty slice — never a truncated list of the successes. -/
theorem getPricesFor_all_or_nothing (svc : PriceService) (c : TransparentCache)
    (now : Int) (arrival : List String) :
    ((GetPricesFor svc c now arrival).1.2 = none ↔
      ∀ req ∈ (runGoroutines svc c now arrival).1, req.err = none) ∧
    ((GetPricesFor svc c now arrival).1.2 = none →
      (GetPricesFor svc c now arrival).1.1 =
        (runGoroutines svc c now arrival).1.map fun r => r.price) ∧
    ((GetPricesFor svc c now arrival).1.2 ≠ none →
      (GetPricesFor svc c now arrival).1.1 = []) := by
  rw [getPricesFor_fst]
  refine ⟨collectResponses_err_none_iff _, ?_, collectResponses_of_err _⟩
  intro h
  have hall := (collectResponses_err_none_iff _).mp h
  rw [collectResponses_of_all_ok _ hall]

/-- C5 counterexample: the wrap context produced by the code is
`"getting price from service : "`, not the claim's
`"failed while getting price"` — at a concrete failing lookup the
returned message does not even begin with the claimed context. -/
theorem error_context_not_failed_while :
    (GetPriceFor svcBoom cacheEmpty 0 "x").err =
      some "getting price from service : boom" ∧
    List.isPrefixOf "failed while getting price".data
      "getting price from service : boom".data = false := by decide

/-- C5 as amended: when the upstream call fails, the lookup returns a
failure wrapping the underlying cause with the context
`"getting price from service : "`, and the cache (hence the store) is
left completely unchanged — no entry inserted, overwritten or removed. -/
theorem upstream_failure_wrapped_store_unchanged (svc : PriceService)
    (c : TransparentCache) (now : Int) (itemCode : String) (cause : String)
    (hmiss : hasFreshEntry c now itemCode = false)
    (hsvc : svc itemCode = Except.error cause) :
    GetPriceFor svc c now itemCode =
      { price := 0, err := some ("getting price from service : " ++ cause),
        cache := c, upstreamCalls := [itemCode] } := by
  rw [getPriceFor_of_not_fresh svc c now itemCode hmiss]
  simp only [fetchFromService, hsvc]

/-- Witness for the amended C5 at a concrete input. -/
theorem upstream_failure_wrapped_store_unchanged_witness :
    GetPriceFor svcBoom cacheEmpty 0 "x" =
      { price := 0, err := some ("getting price from service : " ++ "boom"),
        cache := cacheEmpty, upstreamCalls := ["x"] } :=
  upstream_failure_wrapped_store_unchanged svcBoom cacheEmpty 0 "x" "boom"
    (by decide) rfl

/-- C6: confirmed. A lookup of an identifier present with a fresh entry
returns the stored value, invokes no collaborator, and leaves the whole
cache (store included) unchanged. -/
theorem fresh_hit_no_call_no_write (svc : PriceService) (c : TransparentCache)
    (now : Int) (itemCode : String) (p : Price)
    (hfind : Store.find c.prices itemCode = some p)
    (hfresh : p.checkExpiration now c.maxAge = true) :
    GetPriceFor svc c now itemCode =
      { price := p.price, err := none, cache := c, upstreamCalls := [] } :=
  getPriceFor_of_fresh svc c now itemCode p hfind hfresh

/-- Witness for C6 at a concrete input: fresh entry for "b". -/
theorem fresh_hit_no_call_no_write_witness :
    GetPriceFor svcUnused cacheTwoFresh 5 "b" =
      { price := 2, err := none, cache := cacheTwoFresh, upstreamCalls := [] } :=
  fresh_hit_no_call_no_write svcUnused cacheTwoFresh 5 "b"
    { price := 2, creationDate := 0 } (by decide) (by decide)

/-- C7: confirmed. On a miss or stale entry with a successful upstream
call, a new entry holding the fetched value and the current instant is
stored under the identifier (overwriting any previous entry in both value
and timestamp, as the final lookup shows), and the fetched value is
returned. -/
theorem successful_fetch_overwrites_entry (svc : PriceService)
    (c : TransparentCache) (now : Int) (itemCode : String) (v : Int)
    (hmiss : hasFreshEntry c now itemCode = false)
    (hsvc : svc itemCode = Except.ok v) :
    GetPriceFor svc c now itemCode =
      { price := v, err := none,
        cache := sequentialPriceSet c itemCode { price := v, creationDate := now },
        upstreamCalls := [itemCode] } ∧
    Store.find (GetPriceFor svc c now itemCode).cache.prices itemCode =
      some { price := v, creationDate := now } := by
  have h := getPriceFor_of_not_fresh svc c now itemCode hmiss
  constructor
  · rw [h]
    simp only [fetchFromService, hsvc]
  · rw [h]
    simp only [fetchFromService, hsvc, sequentialPriceSet]
    exact Store.find_set_self _ _ _

/-- Witness for C7 at a concrete input: miss on "a" in the empty cache. -/
theorem successful_fetch_overwrites_entry_witness :
    (GetPriceFor svcFive cacheEmpty 7 "a" =
      { price := 5, err := none,
        cache := sequentialPriceSet cacheEmpty "a" { price := 5, creationDate := 7 },
        upstreamCalls := ["a"] }) ∧
    Store.find (GetPriceFor svcFive cacheEmpty 7 "a").cache.prices "a" =
      some { price := 5, creationDate := 7 } :=
  successful_fetch_overwrites_entry svcFive cacheEmpty 7 "a" 5 (by decide) rfl

/-- C8 counterexample: for the batch `["a", "a"]` with "a" absent from the
store (so not fresh before the batch started) and an always-succeeding
service, the schedule in which the first goroutine completes before the
second starts makes the second occurrence a fresh cache hit: the
collaborator is invoked once in total — not "at least once per
occurrence" (which would require two invocations). -/
theorem duplicate_occurrence_served_from_cache :
    hasFreshEntry cacheEmpty 0 "a" = false ∧
    (GetPricesFor svcFive cacheEmpty 0 ["a", "a"]).1 = ([5, 5], none) ∧
    (GetPricesFor svcFive cacheEmpty 0 ["a", "a"]).2.2 = ["a"] ∧
    (["a", "a"] : List String).count "a" = 2 ∧
    ((GetPricesFor svcFive cacheEmpty 0 ["a", "a"]).2.2).count "a" = 1 := by decide

/-- C8 as amended: the batch launches exactly one unit of concurrent work
per requested identifier — duplicates launch separate lookups, with no
request-level deduplication (one `PriceRequest` per occurrence, and the
scheduled lookups are the input occurrences themselves) — and if no
requested identifier is fresh at batch start the collaborator is invoked
at least once; but a duplicate occurrence scheduled after an earlier
occurrence's store write may be served from the cache, so one invocation
per occurrence is not guaranteed. -/
theorem batch_one_unit_per_occurrence (svc : PriceService) (c : TransparentCache)
    (now : Int) (itemCodes arrival : List String)
    (hperm : List.Perm arrival itemCodes) :
    (runGoroutines svc c now arrival).1.length = itemCodes.length ∧
    (∀ code : String, arrival.count code = itemCodes.count code) ∧
    ((∀ code ∈ itemCodes, hasFreshEntry c now code = false) → itemCodes ≠ [] →
      (GetPricesFor svc c now arrival).2.2 ≠ []) := by
  refine ⟨by rw [runGoroutines_length]; exact hperm.length_eq,
    fun code => hperm.count_eq code, ?_⟩
  intro hnofresh hne
  cases harr : arrival with
  | nil =>
      rw [harr] at hperm
      exact absurd hperm.symm.eq_nil hne
  | cons i rest =>
      have hi : i ∈ itemCodes := by
        refine hperm.mem_iff.mp ?_
        rw [harr]
        exact List.mem_cons_self i rest
      have hmiss := hnofresh i hi
      rw [getPricesFor_calls]
      simp only [runGoroutines, processRequest]
      rw [getPriceFor_of_not_fresh svc c now i hmiss, fetchFromService_upstreamCalls]
      simp

/-- Witness for the amended C8 at a concrete input: the batch
`["a", "a"]` on the empty cache makes at least one upstream call. -/
theorem batch_one_unit_per_occurrence_witness :
    (GetPricesFor svcFive cacheEmpty 0 ["a", "a"]).2.2 ≠ [] :=
  (batch_one_unit_per_occurrence svcFive cacheEmpty 0 ["a", "a"] ["a", "a"]
    (List.Perm.refl _)).2.2 (by decide) (by decide)

/-- C9: confirmed. The store is empty at construction; a single-item
lookup only ever adds or overwrites the entry of the requested identifier
(every previously present key is still present afterwards, and any key
present afterwards was present before or is the requested identifier —
never a deletion); and a batch, which only calls the single-item
operation, likewise preserves every previously present key. -/
theorem store_empty_then_keys_grow :
    (∀ maxAge : Int, (NewTransparentCache maxAge).prices = []) ∧
    (∀ (svc : PriceService) (c : TransparentCache) (now : Int) (itemCode k : String),
      k ∈ Store.keys c.prices →
      k ∈ Store.keys (GetPriceFor svc c now itemCode).cache.prices) ∧
    (∀ (svc : PriceService) (c : TransparentCache) (now : Int) (itemCode k : String),
      k ∈ Store.keys (GetPriceFor svc c now itemCode).cache.prices →
      k ∈ Store.keys c.prices ∨ k = itemCode) ∧
    (∀ (svc : PriceService) (c : TransparentCache) (now : Int)
      (arrival : List String) (k : String),
      k ∈ Store.keys c.prices →
      k ∈ Store.keys (GetPricesFor svc c now arrival).2.1.prices) := by
  refine ⟨fun _ => rfl, keys_getPriceFor_superset, keys_getPriceFor_subset, ?_⟩
  intro svc c now arrival k hk
  rw [getPricesFor_cache]
  exact keys_runGoroutines_superset svc now arrival c k hk

/-- C10: confirmed. A batch with zero identifiers returns the empty price
list with a nil error, invokes the collaborator zero times, and leaves
the cache unchanged. -/
theorem empty_batch_succeeds (svc : PriceService) (c : TransparentCache) (now : Int) :
    GetPricesFor svc c now [] = (([], none), c, []) := rfl

end Sample1
